import Mathlib

/-
  Verification of the job scheduling and lifecycle engine of the
  transcription_summarizer repository.

  Shallow embedding of:
    - src/app/dtos/dtos.py        (JobStatus, JobPriority, TranscriptionJob)
    - src/app/services/job_manager.py (JobManager: queues, store, cleanup)

  Modelling conventions:
    - datetime is an abstract integer clock measured in minutes
      (JOB_TIMEOUT_MINUTES = 30, the cleanup retention of 1 hour = 60);
      datetime.timestamp() is modelled as the identity on that clock, which
      preserves its only use, ordering of queue entries.
    - A Python raise is modelled as Except.error; every raise in the mark_*
      operations occurs before any field assignment, except the re-check
      raise of _validate_state, which is proved unreachable below for records
      satisfying the state invariant, so the error branches always stand for
      an unchanged record.
    - The store dict is an insertion-ordered association list with unique
      keys; dict.get is first-match lookup.
    - asyncio.PriorityQueue is a multiset of (priority_value, timestamp,
      job_id) tuples; get removes the least tuple in Python tuple order;
      put on a full queue suspends (does not raise), modelled as a distinct
      blocked outcome.
    - Payload fields of Transcript never inspected by the scheduling logic
      (duration, speakers) are omitted; a pydantic model instance is always
      truthy, so an Optional[Transcript] is falsy exactly when None.
-/

namespace TS

/-- JobStatus enum from src/app/dtos/dtos.py. -/
inductive JobStatus
  | PENDING
  | PROCESSING
  | COMPLETED
  | FAILED
deriving DecidableEq, Repr

/-- JobPriority enum from src/app/dtos/dtos.py; members are declared in the
order LOW, MEDIUM, HIGH, which is the order Python iterates the enum. -/
inductive JobPriority
  | LOW
  | MEDIUM
  | HIGH
deriving DecidableEq, Repr

/-- Member order of JobPriority, as produced by `for priority in JobPriority`. -/
def jobPriorityMembers : List JobPriority := [.LOW, .MEDIUM, .HIGH]

/-- Transcript payload (src/app/dtos/dtos.py); fields never inspected by the
scheduling logic (duration, speakers) are omitted. -/
structure Transcript where
  job_id : String
  url : String
  text : String
  language : String
deriving DecidableEq, Repr

/-- TranscriptionJob record (src/app/dtos/dtos.py). -/
structure TranscriptionJob where
  job_id : String
  url : String
  status : JobStatus
  priority : JobPriority
  created_at : Int
  started_at : Option Int := none
  completed_at : Option Int := none
  error_message : Option String := none
  transcript : Option Transcript := none
deriving DecidableEq, Repr

/-- Python truthiness of an Optional[str]: None and the empty string are falsy. -/
def truthyStr : Option String → Bool
  | none => false
  | some s => !(s == "")

/-- TranscriptionJob._validate_state: false exactly when one of the four
consistency checks would raise ValueError. -/
def validate_state (j : TranscriptionJob) : Bool :=
  if j.status = .COMPLETED ∧ j.transcript = none then false
  else if j.status = .FAILED ∧ truthyStr j.error_message = false then false
  else if j.transcript ≠ none ∧ j.status ≠ .COMPLETED then false
  else if truthyStr j.error_message = true ∧ j.status ≠ .FAILED then false
  else true

/-- Errors raised by the job record operations: InvalidJobStateError and
ValueError (src/app/exceptions.py, src/app/dtos/dtos.py). -/
inductive JobErr
  | invalidState (msg : String)
  | valueError (msg : String)
deriving DecidableEq, Repr

/-- Rendering of a JobStatus member inside an f-string; no theorem below
depends on the exact rendering. -/
def statusStr : JobStatus → String
  | .PENDING => "JobStatus.PENDING"
  | .PROCESSING => "JobStatus.PROCESSING"
  | .COMPLETED => "JobStatus.COMPLETED"
  | .FAILED => "JobStatus.FAILED"

/-- TranscriptionJob.mark_processing. -/
def mark_processing (j : TranscriptionJob) (now : Int) : Except JobErr TranscriptionJob :=
  if j.status ≠ .PENDING then
    .error (.invalidState ("Cannot mark job as processing from state " ++ statusStr j.status))
  else
    let j' := { j with status := .PROCESSING, started_at := some now }
    if validate_state j' then .ok j'
    else .error (.valueError "state validation failed")

/-- TranscriptionJob.mark_completed; the transcript argument is None exactly
when the Python `not transcript` check fires. -/
def mark_completed (j : TranscriptionJob) (t : Option Transcript) (now : Int) :
    Except JobErr TranscriptionJob :=
  if j.status ≠ .PROCESSING then
    .error (.invalidState ("Cannot mark job as completed from state " ++ statusStr j.status))
  else if t = none then
    .error (.valueError "Must provide transcript when completing job")
  else
    let j' := { j with status := .COMPLETED, completed_at := some now, transcript := t }
    if validate_state j' then .ok j'
    else .error (.valueError "state validation failed")

/-- TranscriptionJob.mark_failed. -/
def mark_failed (j : TranscriptionJob) (msg : String) (now : Int) :
    Except JobErr TranscriptionJob :=
  if j.status ≠ .PENDING ∧ j.status ≠ .PROCESSING then
    .error (.invalidState ("Cannot mark job as failed from state " ++ statusStr j.status))
  else if msg = "" then
    .error (.valueError "Must provide error message when failing job")
  else
    let j' := { j with status := .FAILED, completed_at := some now,
                       error_message := some msg, transcript := none }
    if validate_state j' then .ok j'
    else .error (.valueError "state validation failed")

/-- TranscriptionJob.create_pending. -/
def create_pending (jid url : String) (priority : JobPriority) (now : Int) :
    TranscriptionJob :=
  { job_id := jid, url := url, status := .PENDING, priority := priority, created_at := now }

/-- One attempted record transition, tagging which operation with which
arguments. -/
inductive JobOp
  | opProcessing (now : Int)
  | opCompleted (t : Option Transcript) (now : Int)
  | opFailed (msg : String) (now : Int)

/-- Apply one attempted transition to a record: on a raise the Python object
is unchanged (for records satisfying jobInvariant, all raises occur before
any field assignment; the post-assignment _validate_state raise is proved
unreachable below). -/
def applyOp (j : TranscriptionJob) (op : JobOp) : TranscriptionJob :=
  match op with
  | .opProcessing now =>
    match mark_processing j now with
    | .ok j' => j'
    | .error _ => j
  | .opCompleted t now =>
    match mark_completed j t now with
    | .ok j' => j'
    | .error _ => j
  | .opFailed msg now =>
    match mark_failed j msg now with
    | .ok j' => j'
    | .error _ => j

/-- The record invariants of spec §3, presence read through Python truthiness
(a field is present when it is not None). -/
def jobInvariant (j : TranscriptionJob) : Prop :=
  (j.status = .COMPLETED ↔ (j.transcript ≠ none ∧ j.error_message = none)) ∧
  (j.status = .FAILED ↔ (j.error_message ≠ none ∧ j.transcript = none)) ∧
  ((j.status = .PENDING ∨ j.status = .PROCESSING) →
    (j.transcript = none ∧ j.error_message = none))

instance (j : TranscriptionJob) : Decidable (jobInvariant j) := by
  unfold jobInvariant
  infer_instance

/-- A priority-queue entry: the tuple
(priority_value, job.created_at.timestamp(), job.job_id) built in
JobManager.queue_job. -/
structure QueueItem where
  rank : Nat
  ts : Int
  jid : String
deriving DecidableEq, Repr

/-- Strict Python tuple comparison on (rank, ts, job_id), the order used by
heapq inside asyncio.PriorityQueue. -/
def itemLt (a b : QueueItem) : Prop :=
  a.rank < b.rank ∨ (a.rank = b.rank ∧ (a.ts < b.ts ∨ (a.ts = b.ts ∧ a.jid < b.jid)))

instance (a b : QueueItem) : Decidable (itemLt a b) := by
  unfold itemLt
  infer_instance

/-- asyncio.PriorityQueue.get on a non-empty queue: remove and return the
least item in tuple order (the queue content is the list, viewed as a
multiset). -/
def popMin : List QueueItem → Option (QueueItem × List QueueItem)
  | [] => none
  | x :: xs =>
    match popMin xs with
    | none => some (x, [])
    | some (m, rest) => if itemLt m x then some (m, x :: rest) else some (x, xs)

/-- The JobManager's shared mutable state: the job store dict (insertion
ordered, unique keys) and the three bounded priority queues. -/
structure JobManagerState where
  jobs : List (String × TranscriptionJob)
  highQ : List QueueItem
  medQ : List QueueItem
  lowQ : List QueueItem
deriving DecidableEq, Repr

def MAX_QUEUE_SIZE : Nat := 1000

def JOB_TIMEOUT_MINUTES : Int := 30

/-- CLEANUP_INTERVAL_HOURS = 1, converted to the minute clock. -/
def CLEANUP_INTERVAL_MINUTES : Int := 60

/-- The priority_value dict in JobManager.queue_job. -/
def priority_value : JobPriority → Nat
  | .HIGH => 1
  | .MEDIUM => 2
  | .LOW => 3

def getQueue (s : JobManagerState) : JobPriority → List QueueItem
  | .HIGH => s.highQ
  | .MEDIUM => s.medQ
  | .LOW => s.lowQ

def setQueue (s : JobManagerState) (p : JobPriority) (q : List QueueItem) :
    JobManagerState :=
  match p with
  | .HIGH => { s with highQ := q }
  | .MEDIUM => { s with medQ := q }
  | .LOW => { s with lowQ := q }

/-- self._jobs.get(job_id): first-match lookup in the store. -/
def lookupJob : List (String × TranscriptionJob) → String → Option TranscriptionJob
  | [], _ => none
  | (k, v) :: rest, jid => if k = jid then some v else lookupJob rest jid

/-- Outcome of one JobManager.queue_job call: normal return with the new
state, suspension of `await put` on a full queue, or a raised error.  The
error outcome exists so the spec's queue-error claim is expressible; the
embedding below never produces it (the InvalidPriorityError branch is dead,
every JobPriority member is a key of the priority_value dict). -/
inductive QueueJobResult
  | ok (s : JobManagerState)
  | blocked
  | raised (e : String)
deriving DecidableEq, Repr

/-- JobManager.queue_job: builds the tuple
(priority_value, job.created_at.timestamp(), job.job_id) and awaits put on
the queue of the job's priority; put appends when the queue holds fewer than
MAX_QUEUE_SIZE items and otherwise suspends until space is available. -/
def queue_job (s : JobManagerState) (job : TranscriptionJob) : QueueJobResult :=
  let item : QueueItem := ⟨priority_value job.priority, job.created_at, job.job_id⟩
  let q := getQueue s job.priority
  if q.length < MAX_QUEUE_SIZE then .ok (setQueue s job.priority (q ++ [item]))
  else .blocked

/-- The scan of JobManager.get_next_job over a list of priority levels: for
each level, when that level's queue is non-empty, pop its least entry once;
return the referenced job when it is still stored and still PENDING,
otherwise drop the popped entry and move to the next level. -/
def getNextJobScan :
    List JobPriority → JobManagerState → Option TranscriptionJob × JobManagerState
  | [], s => (none, s)
  | p :: ps, s =>
    match popMin (getQueue s p) with
    | none => getNextJobScan ps s
    | some (item, q') =>
      let s' := setQueue s p q'
      match lookupJob s'.jobs item.jid with
      | some job =>
        if job.status = .PENDING then (some job, s') else getNextJobScan ps s'
      | none => getNextJobScan ps s'

/-- JobManager.get_next_job: `for priority in JobPriority` iterates the enum
member order LOW, MEDIUM, HIGH. -/
def get_next_job (s : JobManagerState) : Option TranscriptionJob × JobManagerState :=
  getNextJobScan jobPriorityMembers s

/-- The statistics dict returned by JobManager.force_cleanup. -/
structure CleanupStats where
  initial_job_count : Nat
  final_job_count : Nat
  stale_completed_removed : Nat
  stale_failed_removed : Nat
  processing_timed_out : Nat
deriving DecidableEq, Repr

/-- One iteration of the force_cleanup loop for a single stored job: none
means the job id joins jobs_to_remove; some j' means the job stays (possibly
force-failed).  The three counters are the increments to stale_completed,
stale_failed and timed_out.  A raise while handling the record is logged and
skipped (the except branch); it is proved below that mark_failed from
PROCESSING with the fixed non-empty message never raises. -/
def cleanupEntry (now : Int) (j : TranscriptionJob) :
    Option TranscriptionJob × Nat × Nat × Nat :=
  if j.status = .COMPLETED ∨ j.status = .FAILED then
    match j.completed_at with
    | some c =>
      if now - c > CLEANUP_INTERVAL_MINUTES then
        if j.status = .COMPLETED then (none, 1, 0, 0) else (none, 0, 1, 0)
      else (some j, 0, 0, 0)
    | none => (some j, 0, 0, 0)
  else if j.status = .PROCESSING then
    match j.started_at with
    | some st =>
      if now - st > JOB_TIMEOUT_MINUTES then
        match mark_failed j "Job timed out during forced cleanup" now with
        | .ok j' => (some j', 0, 0, 1)
        | .error _ => (some j, 0, 0, 0)
      else (some j, 0, 0, 0)
    | none => (some j, 0, 0, 0)
  else (some j, 0, 0, 0)

/-- The force_cleanup loop over the whole store, keeping insertion order of
the surviving entries and summing the counters. -/
def cleanupPass (now : Int) :
    List (String × TranscriptionJob) → List (String × TranscriptionJob) × Nat × Nat × Nat
  | [] => ([], 0, 0, 0)
  | (k, j) :: rest =>
    let r := cleanupPass now rest
    match cleanupEntry now j with
    | (none, a, b, c) => (r.1, r.2.1 + a, r.2.2.1 + b, r.2.2.2 + c)
    | (some j', a, b, c) => ((k, j') :: r.1, r.2.1 + a, r.2.2.1 + b, r.2.2.2 + c)

/-- JobManager.force_cleanup: one pass over the store under the lock,
removing stale terminal jobs, force-failing timed-out PROCESSING jobs, and
returning the statistics dict. -/
def force_cleanup (s : JobManagerState) (now : Int) : JobManagerState × CleanupStats :=
  let r := cleanupPass now s.jobs
  ({ s with jobs := r.1 },
   { initial_job_count := s.jobs.length,
     final_job_count := r.1.length,
     stale_completed_removed := r.2.1,
     stale_failed_removed := r.2.2.1,
     processing_timed_out := r.2.2.2 })

/-- True exactly when the outcome is a raised InvalidJobStateError. -/
def isInvalidStateErr (r : Except JobErr TranscriptionJob) : Prop :=
  ∃ m, r = .error (.invalidState m)

/-- True exactly when a queue_job outcome is a raised error. -/
def isRaised : QueueJobResult → Bool
  | .raised _ => true
  | _ => false

lemma getQueue_setQueue_same (s : JobManagerState) (p : JobPriority) (q : List QueueItem) :
    getQueue (setQueue s p q) p = q := by
  cases p <;> rfl

lemma getQueue_setQueue_ne (s : JobManagerState) (p p' : JobPriority) (q : List QueueItem)
    (h : p ≠ p') : getQueue (setQueue s p' q) p = getQueue s p := by
  cases p <;> cases p' <;> simp_all [getQueue, setQueue]

lemma setQueue_jobs (s : JobManagerState) (p : JobPriority) (q : List QueueItem) :
    (setQueue s p q).jobs = s.jobs := by
  cases p <;> rfl

lemma mark_processing_invalid_of_not_pending (j : TranscriptionJob) (now : Int)
    (h : j.status ≠ .PENDING) : isInvalidStateErr (mark_processing j now) := by
  unfold mark_processing
  rw [if_pos h]
  exact ⟨_, rfl⟩

lemma mark_completed_invalid_of_not_processing (j : TranscriptionJob) (t : Option Transcript)
    (now : Int) (h : j.status ≠ .PROCESSING) : isInvalidStateErr (mark_completed j t now) := by
  unfold mark_completed
  rw [if_pos h]
  exact ⟨_, rfl⟩

lemma mark_failed_invalid_of_terminal (j : TranscriptionJob) (msg : String) (now : Int)
    (h : j.status ≠ .PENDING ∧ j.status ≠ .PROCESSING) :
    isInvalidStateErr (mark_failed j msg now) := by
  unfold mark_failed
  rw [if_pos h]
  exact ⟨_, rfl⟩

lemma applyOp_processing_of_err (j : TranscriptionJob) (now : Int)
    (h : isInvalidStateErr (mark_processing j now)) : applyOp j (.opProcessing now) = j := by
  obtain ⟨m, hm⟩ := h
  simp [applyOp, hm]

lemma applyOp_completed_of_err (j : TranscriptionJob) (t : Option Transcript) (now : Int)
    (h : isInvalidStateErr (mark_completed j t now)) : applyOp j (.opCompleted t now) = j := by
  obtain ⟨m, hm⟩ := h
  simp [applyOp, hm]

lemma applyOp_failed_of_err (j : TranscriptionJob) (msg : String) (now : Int)
    (h : isInvalidStateErr (mark_failed j msg now)) : applyOp j (.opFailed msg now) = j := by
  obtain ⟨m, hm⟩ := h
  simp [applyOp, hm]

lemma mark_processing_ok_inv {j j' : TranscriptionJob} {now : Int}
    (h : mark_processing j now = .ok j') :
    j.status = .PENDING ∧ j' = { j with status := .PROCESSING, started_at := some now } := by
  unfold mark_processing at h
  split at h
  · exact Except.noConfusion h
  · next hc =>
    dsimp only at h
    split at h
    · exact ⟨not_not.mp hc, (Except.ok.injEq _ _ ▸ h).symm⟩
    · exact Except.noConfusion h

lemma mark_completed_ok_inv {j j' : TranscriptionJob} {t : Option Transcript} {now : Int}
    (h : mark_completed j t now = .ok j') :
    j.status = .PROCESSING ∧ t ≠ none ∧
      j' = { j with status := .COMPLETED, completed_at := some now, transcript := t } := by
  unfold mark_completed at h
  split at h
  · exact Except.noConfusion h
  · next hc =>
    split at h
    · exact Except.noConfusion h
    · next ht =>
      dsimp only at h
      split at h
      · exact ⟨not_not.mp hc, ht, (Except.ok.injEq _ _ ▸ h).symm⟩
      · exact Except.noConfusion h

lemma mark_failed_ok_inv {j j' : TranscriptionJob} {msg : String} {now : Int}
    (h : mark_failed j msg now = .ok j') :
    (j.status = .PENDING ∨ j.status = .PROCESSING) ∧ msg ≠ "" ∧
      j' = { j with status := .FAILED, completed_at := some now,
                    error_message := some msg, transcript := none } := by
  unfold mark_failed at h
  split at h
  · exact Except.noConfusion h
  · next hc =>
    split at h
    · exact Except.noConfusion h
    · next hm =>
      dsimp only at h
      split at h
      · refine ⟨?_, hm, (Except.ok.injEq _ _ ▸ h).symm⟩
        rcases not_and_or.mp hc with h1 | h2
        · exact Or.inl (not_not.mp h1)
        · exact Or.inr (not_not.mp h2)
      · exact Except.noConfusion h

/-- Claim C8: COMPLETED and FAILED are terminal.  From either terminal status
all three transition operations raise InvalidJobStateError and leave the
record unchanged; markCompleted after a successful markFailed raises, and a
second markProcessing after a successful one raises. -/
theorem terminal_states_reject_all_transitions :
    ∀ (j j' : TranscriptionJob) (t : Option Transcript) (msg : String) (n n2 : Int),
      ((j.status = .COMPLETED ∨ j.status = .FAILED) →
        isInvalidStateErr (mark_processing j n) ∧
        isInvalidStateErr (mark_completed j t n) ∧
        isInvalidStateErr (mark_failed j msg n) ∧
        applyOp j (.opProcessing n) = j ∧
        applyOp j (.opCompleted t n) = j ∧
        applyOp j (.opFailed msg n) = j) ∧
      (mark_failed j msg n = .ok j' → isInvalidStateErr (mark_completed j' t n2)) ∧
      (mark_processing j n = .ok j' → isInvalidStateErr (mark_processing j' n2)) := by
  intro j j' t msg n n2
  refine ⟨?_, ?_, ?_⟩
  · intro hterm
    have hnp : j.status ≠ .PENDING := by rcases hterm with h | h <;> simp [h]
    have hnpr : j.status ≠ .PROCESSING := by rcases hterm with h | h <;> simp [h]
    have h1 := mark_processing_invalid_of_not_pending j n hnp
    have h2 := mark_completed_invalid_of_not_processing j t n hnpr
    have h3 := mark_failed_invalid_of_terminal j msg n ⟨hnp, hnpr⟩
    exact ⟨h1, h2, h3, applyOp_processing_of_err j n h1,
           applyOp_completed_of_err j t n h2, applyOp_failed_of_err j msg n h3⟩
  · intro hok
    obtain ⟨-, -, hj'⟩ := mark_failed_ok_inv hok
    refine mark_completed_invalid_of_not_processing j' t n2 ?_
    rw [hj']
    simp
  · intro hok
    obtain ⟨-, hj'⟩ := mark_processing_ok_inv hok
    refine mark_processing_invalid_of_not_pending j' n2 ?_
    rw [hj']
    simp

/-- Concrete COMPLETED record used to witness the terminal-state theorem. -/
def doneJob : TranscriptionJob :=
  { job_id := "d", url := "https://x/d.mp3", status := .COMPLETED, priority := .MEDIUM,
    created_at := 0, started_at := some 1, completed_at := some 2,
    transcript := some ⟨"d", "https://x/d.mp3", "text", "en"⟩ }

/-- Witness for the terminal-state theorem at a concrete COMPLETED record. -/
theorem terminal_states_reject_all_transitions_witness :
    isInvalidStateErr (mark_processing doneJob 3) ∧
    applyOp doneJob (.opCompleted none 3) = doneJob :=
  ⟨((terminal_states_reject_all_transitions doneJob doneJob none "m" 3 4).1
      (Or.inl rfl)).1,
   (((terminal_states_reject_all_transitions doneJob doneJob none "m" 3 4).1
      (Or.inl rfl)).2.2.2.2.1)⟩

/-- Claim C7: markCompleted with an empty (None) result on a PROCESSING job
raises ValueError before any field assignment, so the record is unchanged. -/
theorem markCompleted_empty_result_rejected :
    ∀ (j : TranscriptionJob) (now : Int), j.status = .PROCESSING →
      mark_completed j none now =
        .error (.valueError "Must provide transcript when completing job") ∧
      applyOp j (.opCompleted none now) = j := by
  intro j now h
  have he : mark_completed j none now =
      .error (.valueError "Must provide transcript when completing job") := by
    unfold mark_completed
    rw [if_neg (by simp [h]), if_pos rfl]
  exact ⟨he, by simp [applyOp, he]⟩

/-- Concrete PROCESSING record used to witness the empty-result rejection. -/
def procJob : TranscriptionJob :=
  { job_id := "p", url := "https://x/p.mp3", status := .PROCESSING, priority := .MEDIUM,
    created_at := 0, started_at := some 1 }

/-- Witness for the empty-result rejection at a concrete PROCESSING record. -/
theorem markCompleted_empty_result_rejected_witness :
    mark_completed procJob none 5 =
      .error (.valueError "Must provide transcript when completing job") ∧
    applyOp procJob (.opCompleted none 5) = procJob :=
  markCompleted_empty_result_rejected procJob 5 rfl

/-- HIGH-priority PENDING job stored under id h (creation time 10). -/
def c1JobH : TranscriptionJob := create_pending "h" "https://x/h.mp3" .HIGH 10

/-- LOW-priority PENDING job stored under id l (creation time 11). -/
def c1JobL : TranscriptionJob := create_pending "l" "https://x/l.mp3" .LOW 11

/-- State whose HIGH queue and LOW queue each hold one entry referencing a
live PENDING job. -/
def c1State : JobManagerState :=
  { jobs := [("h", c1JobH), ("l", c1JobL)],
    highQ := [⟨1, 10, "h"⟩], medQ := [], lowQ := [⟨3, 11, "l"⟩] }

/-- Claim C1 (evaluating the code at the failing input): with live PENDING
entries in both the HIGH and the LOW queue, get_next_job returns the LOW job
and leaves the HIGH entry queued, because `for priority in JobPriority`
iterates the enum member order LOW, MEDIUM, HIGH; the spec requires the HIGH
job. -/
theorem getNextJob_returns_low_before_high :
    (get_next_job c1State).1 = some c1JobL ∧
    (get_next_job c1State).2.highQ = [⟨1, 10, "h"⟩] := by
  exact ⟨rfl, rfl⟩

/-- LOW-priority PENDING job stored under id l1 (creation time 5). -/
def c3Job : TranscriptionJob := create_pending "l1" "https://x/l1.mp3" .LOW 5

/-- State whose LOW queue holds a stale entry (job ghost is not in the store)
ahead of a live entry for the PENDING job l1. -/
def c3State : JobManagerState :=
  { jobs := [("l1", c3Job)],
    highQ := [], medQ := [], lowQ := [⟨3, 1, "ghost"⟩, ⟨3, 5, "l1"⟩] }

/-- Claim C3 counterexample: with a stale entry ahead of a live one in the
same queue, a single get_next_job call returns none even though a queue still
holds an entry referencing a live PENDING job — the call pops at most one
entry per priority level rather than popping until it finds a live one. -/
theorem getNextJob_none_despite_live_entry :
    (get_next_job c3State).1 = none ∧
    (get_next_job c3State).2.lowQ = [⟨3, 5, "l1"⟩] := by
  exact ⟨rfl, rfl⟩

/-- Entry filling the HIGH queue to capacity. -/
def c4Item : QueueItem := ⟨1, 0, "x"⟩

/-- State whose HIGH queue holds MAX_QUEUE_SIZE entries. -/
def c4FullState : JobManagerState :=
  { jobs := [], highQ := List.replicate MAX_QUEUE_SIZE c4Item, medQ := [], lowQ := [] }

/-- HIGH-priority job submitted against the full HIGH queue. -/
def c4Job : TranscriptionJob := create_pending "hj" "https://x/a.mp3" .HIGH 7

lemma c4_high_queue_full : ¬ (getQueue c4FullState c4Job.priority).length < MAX_QUEUE_SIZE := by
  simp [c4FullState, c4Job, create_pending, getQueue]

/-- Claim C4 counterexample: queue_job against a HIGH queue already at
MAX_QUEUE_SIZE suspends on `await put` (blocked) — it does not raise any
queue-error. -/
theorem queueJob_full_blocks_not_errors :
    queue_job c4FullState c4Job = .blocked ∧
    isRaised (queue_job c4FullState c4Job) = false := by
  have h : queue_job c4FullState c4Job = .blocked := by
    unfold queue_job
    rw [if_neg c4_high_queue_full]
  exact ⟨h, by rw [h]; rfl⟩

/-- Claim C4 as amended: when a priority's queue already holds MAX_QUEUE_SIZE
entries, queue_job for that priority blocks awaiting space instead of raising
a queue-error; queue_job never raises, and a successful call leaves the
queues of the other priorities unchanged. -/
theorem queueJob_blocks_at_capacity :
    ∀ (s : JobManagerState) (job : TranscriptionJob),
      ((getQueue s job.priority).length ≥ MAX_QUEUE_SIZE → queue_job s job = .blocked) ∧
      isRaised (queue_job s job) = false ∧
      (∀ (s' : JobManagerState) (p : JobPriority),
        queue_job s job = .ok s' → p ≠ job.priority → getQueue s' p = getQueue s p) := by
  intro s job
  refine ⟨?_, ?_, ?_⟩
  · intro h
    unfold queue_job
    rw [if_neg (by omega)]
  · unfold queue_job
    dsimp only
    split <;> rfl
  · intro s' p hok hne
    unfold queue_job at hok
    dsimp only at hok
    split at hok
    · rw [← (QueueJobResult.ok.injEq _ _ ▸ hok :
          setQueue s job.priority (getQueue s job.priority ++
            [⟨priority_value job.priority, job.created_at, job.job_id⟩]) = s')]
      exact getQueue_setQueue_ne _ _ _ _ hne
    · exact QueueJobResult.noConfusion hok

/-- Witness for the amended C4 theorem at the concrete full HIGH queue. -/
theorem queueJob_blocks_at_capacity_witness :
    queue_job c4FullState c4Job = .blocked :=
  (queueJob_blocks_at_capacity c4FullState c4Job).1 (by
    have := c4_high_queue_full
    omega)

lemma mark_processing_from_pending (j : TranscriptionJob) (now : Int)
    (hp : j.status = .PENDING) (ht : j.transcript = none) (he : j.error_message = none) :
    mark_processing j now = .ok { j with status := .PROCESSING, started_at := some now } := by
  unfold mark_processing
  rw [if_neg (by simp [hp])]
  dsimp only
  rw [if_pos (by simp [validate_state, truthyStr, ht, he])]

lemma mark_completed_from_processing (j : TranscriptionJob) (tr : Transcript) (now : Int)
    (hp : j.status = .PROCESSING) (he : j.error_message = none) :
    mark_completed j (some tr) now =
      .ok { j with status := .COMPLETED, completed_at := some now, transcript := some tr } := by
  unfold mark_completed
  rw [if_neg (by simp [hp]), if_neg (by simp)]
  dsimp only
  rw [if_pos (by simp [validate_state, truthyStr, he])]

lemma mark_failed_from_nonterminal (j : TranscriptionJob) (msg : String) (now : Int)
    (hs : j.status = .PENDING ∨ j.status = .PROCESSING) (hmsg : msg ≠ "") :
    mark_failed j msg now =
      .ok { j with status := .FAILED, completed_at := some now,
                   error_message := some msg, transcript := none } := by
  unfold mark_failed
  rw [if_neg (by rcases hs with h | h <;> simp [h]), if_neg hmsg]
  dsimp only
  rw [if_pos (by simp [validate_state, truthyStr, hmsg])]

/-- For a record satisfying the invariant, the _validate_state re-check after
a transition never raises: every error outcome of the three operations is one
of the guard raises, which occur before any field assignment. -/
lemma validation_recheck_never_raises (j : TranscriptionJob) (h : jobInvariant j)
    (t : Option Transcript) (msg : String) (now : Int) :
    mark_processing j now ≠ .error (.valueError "state validation failed") ∧
    mark_completed j t now ≠ .error (.valueError "state validation failed") ∧
    mark_failed j msg now ≠ .error (.valueError "state validation failed") := by
  refine ⟨?_, ?_, ?_⟩
  · by_cases hp : j.status = .PENDING
    · rw [mark_processing_from_pending j now hp (h.2.2 (Or.inl hp)).1 (h.2.2 (Or.inl hp)).2]
      simp
    · obtain ⟨m, hm⟩ := mark_processing_invalid_of_not_pending j now hp
      rw [hm]
      simp
  · by_cases hp : j.status = .PROCESSING
    · cases t with
      | none =>
        unfold mark_completed
        rw [if_neg (by simp [hp]), if_pos rfl]
        simp
      | some tr =>
        rw [mark_completed_from_processing j tr now hp (h.2.2 (Or.inr hp)).2]
        simp
    · obtain ⟨m, hm⟩ := mark_completed_invalid_of_not_processing j t now hp
      rw [hm]
      simp
  · by_cases hs : j.status = .PENDING ∨ j.status = .PROCESSING
    · by_cases hmsg : msg = ""
      · unfold mark_failed
        rw [if_neg (by rcases hs with h | h <;> simp [h]), if_pos hmsg]
        simp
      · rw [mark_failed_from_nonterminal j msg now hs hmsg]
        simp
    · obtain ⟨m, hm⟩ := mark_failed_invalid_of_terminal j msg now
        (by rcases not_or.mp hs with ⟨h1, h2⟩; exact ⟨h1, h2⟩)
      rw [hm]
      simp

lemma create_pending_invariant (jid url : String) (p : JobPriority) (t0 : Int) :
    jobInvariant (create_pending jid url p t0) := by
  simp [jobInvariant, create_pending]

lemma jobInvariant_applyOp {j : TranscriptionJob} (op : JobOp) (h : jobInvariant j) :
    jobInvariant (applyOp j op) := by
  cases op with
  | opProcessing now =>
    cases heq : mark_processing j now with
    | error e => simpa [applyOp, heq] using h
    | ok j2 =>
      obtain ⟨hp, hj2⟩ := mark_processing_ok_inv heq
      obtain ⟨ht, he⟩ := h.2.2 (Or.inl hp)
      subst hj2
      simp [applyOp, heq, jobInvariant, ht, he]
  | opCompleted t now =>
    cases heq : mark_completed j t now with
    | error e => simpa [applyOp, heq] using h
    | ok j2 =>
      obtain ⟨hp, htne, hj2⟩ := mark_completed_ok_inv heq
      obtain ⟨ht, he⟩ := h.2.2 (Or.inr hp)
      subst hj2
      simp [applyOp, heq, jobInvariant, htne, he]
  | opFailed msg now =>
    cases heq : mark_failed j msg now with
    | error e => simpa [applyOp, heq] using h
    | ok j2 =>
      obtain ⟨hs, hmsg, hj2⟩ := mark_failed_ok_inv heq
      subst hj2
      simp [applyOp, heq, jobInvariant]

/-- Claim C2: a record created by create_pending satisfies the §3 invariants,
and every sequence of attempted transitions (each mark_processing,
mark_completed, mark_failed, successful or raising) preserves them:
COMPLETED iff transcript present and error absent, FAILED iff error present
and transcript absent, PENDING or PROCESSING implies both absent. -/
theorem job_record_invariant_after_every_mutation :
    ∀ (jid url : String) (p : JobPriority) (t0 : Int) (ops : List JobOp),
      jobInvariant (ops.foldl applyOp (create_pending jid url p t0)) := by
  intro jid url p t0 ops
  have hgen : ∀ (l : List JobOp) (j : TranscriptionJob),
      jobInvariant j → jobInvariant (l.foldl applyOp j) := by
    intro l
    induction l with
    | nil => exact fun j h => h
    | cons op rest ih => exact fun j h => ih _ (jobInvariant_applyOp op h)
  exact hgen ops _ (create_pending_invariant jid url p t0)

lemma popMin_eq_none {q : List QueueItem} (h : popMin q = none) : q = [] := by
  cases q with
  | nil => rfl
  | cons x xs =>
    exfalso
    cases hx : popMin xs with
    | none => rw [popMin, hx] at h; exact Option.noConfusion h
    | some pr =>
      obtain ⟨m, rest⟩ := pr
      rw [popMin, hx] at h
      dsimp only at h
      split at h <;> exact Option.noConfusion h

lemma popMin_length {q : List QueueItem} {m : QueueItem} {q' : List QueueItem}
    (h : popMin q = some (m, q')) : q'.length + 1 = q.length := by
  induction q generalizing m q' with
  | nil => exact Option.noConfusion h
  | cons x xs ih =>
    cases hx : popMin xs with
    | none =>
      rw [popMin, hx] at h
      obtain ⟨rfl, rfl⟩ := Prod.mk.injEq .. ▸ Option.some.injEq .. ▸ h
      simp [popMin_eq_none hx]
    | some pr =>
      obtain ⟨m', rest⟩ := pr
      rw [popMin, hx] at h
      dsimp only at h
      split at h
      · obtain ⟨rfl, rfl⟩ := Prod.mk.injEq .. ▸ Option.some.injEq .. ▸ h
        have := ih hx
        simp only [List.length_cons]
        omega
      · obtain ⟨rfl, rfl⟩ := Prod.mk.injEq .. ▸ Option.some.injEq .. ▸ h
        rfl

lemma popMin_mem {q : List QueueItem} {m : QueueItem} {q' : List QueueItem}
    (h : popMin q = some (m, q')) : m ∈ q := by
  induction q generalizing m q' with
  | nil => exact Option.noConfusion h
  | cons x xs ih =>
    cases hx : popMin xs with
    | none =>
      rw [popMin, hx] at h
      obtain ⟨rfl, rfl⟩ := Prod.mk.injEq .. ▸ Option.some.injEq .. ▸ h
      exact List.mem_cons_self _ _
    | some pr =>
      obtain ⟨m', rest⟩ := pr
      rw [popMin, hx] at h
      dsimp only at h
      split at h
      · obtain ⟨rfl, rfl⟩ := Prod.mk.injEq .. ▸ Option.some.injEq .. ▸ h
        exact List.mem_cons_of_mem _ (ih hx)
      · obtain ⟨rfl, rfl⟩ := Prod.mk.injEq .. ▸ Option.some.injEq .. ▸ h
        exact List.mem_cons_self _ _

/-- Among same-rank entries with pairwise distinct timestamps, the popped
entry carries the least timestamp. -/
lemma popMin_ts_min {q : List QueueItem} {r : Nat}
    (hr : ∀ x ∈ q, x.rank = r) (hnd : (q.map QueueItem.ts).Nodup)
    {m : QueueItem} {q' : List QueueItem} (h : popMin q = some (m, q')) :
    ∀ x ∈ q, m.ts ≤ x.ts := by
  induction q generalizing m q' with
  | nil => exact Option.noConfusion h
  | cons x xs ih =>
    have hndx : x.ts ∉ xs.map QueueItem.ts := (List.nodup_cons.mp (by simpa using hnd)).1
    have hndxs : (xs.map QueueItem.ts).Nodup := (List.nodup_cons.mp (by simpa using hnd)).2
    have hrxs : ∀ y ∈ xs, y.rank = r := fun y hy => hr y (List.mem_cons_of_mem _ hy)
    cases hx : popMin xs with
    | none =>
      rw [popMin, hx] at h
      obtain ⟨rfl, rfl⟩ := Prod.mk.injEq .. ▸ Option.some.injEq .. ▸ h
      intro y hy
      rcases List.mem_cons.mp hy with rfl | hy'
      · exact le_refl _
      · rw [popMin_eq_none hx] at hy'
        exact absurd hy' (List.not_mem_nil _)
    | some pr =>
      obtain ⟨m', rest⟩ := pr
      have hm'mem : m' ∈ xs := popMin_mem hx
      have hne : x.ts ≠ m'.ts := by
        intro heq
        exact hndx (heq ▸ List.mem_map_of_mem _ hm'mem)
      have hrx : x.rank = r := hr x (List.mem_cons_self _ _)
      have hrm' : m'.rank = r := hrxs m' hm'mem
      have ihxs := ih hrxs hndxs hx
      rw [popMin, hx] at h
      dsimp only at h
      split at h
      · next hlt =>
        obtain ⟨rfl, rfl⟩ := Prod.mk.injEq .. ▸ Option.some.injEq .. ▸ h
        intro y hy
        rcases List.mem_cons.mp hy with rfl | hy'
        · rcases hlt with hlt1 | ⟨-, hlt2⟩
          · omega
          · rcases hlt2 with hts | ⟨hts, -⟩
            · exact le_of_lt hts
            · exact absurd hts.symm hne
        · exact ihxs y hy'
      · next hnlt =>
        obtain ⟨rfl, rfl⟩ := Prod.mk.injEq .. ▸ Option.some.injEq .. ▸ h
        have hxm' : x.ts ≤ m'.ts := by
          by_contra hc
          exact hnlt (Or.inr ⟨by rw [hrm', hrx], Or.inl (by omega)⟩)
        intro y hy
        rcases List.mem_cons.mp hy with rfl | hy'
        · exact le_refl _
        · exact le_trans hxm' (ihxs y hy')

lemma scan_jobs_unchanged (ps : List JobPriority) (s : JobManagerState) :
    (getNextJobScan ps s).2.jobs = s.jobs := by
  induction ps generalizing s with
  | nil => rfl
  | cons p ps ih =>
    rw [getNextJobScan]
    cases hx : popMin (getQueue s p) with
    | none => exact ih s
    | some pr =>
      obtain ⟨item, q'⟩ := pr
      dsimp only
      cases hl : lookupJob (setQueue s p q').jobs item.jid with
      | none =>
        show (getNextJobScan ps (setQueue s p q')).2.jobs = s.jobs
        rw [ih, setQueue_jobs]
      | some job =>
        show (if job.status = .PENDING then (some job, setQueue s p q')
              else getNextJobScan ps (setQueue s p q')).2.jobs = s.jobs
        split
        · exact setQueue_jobs s p q'
        · rw [ih, setQueue_jobs]

lemma scan_some_pending (ps : List JobPriority) (s : JobManagerState)
    (job : TranscriptionJob) :
    (getNextJobScan ps s).1 = some job →
      job.status = .PENDING ∧ ∃ k, lookupJob s.jobs k = some job := by
  induction ps generalizing s with
  | nil => exact fun h => Option.noConfusion h
  | cons p ps ih =>
    intro h
    rw [getNextJobScan] at h
    cases hx : popMin (getQueue s p) with
    | none =>
      rw [hx] at h
      exact ih s h
    | some pr =>
      obtain ⟨item, q'⟩ := pr
      rw [hx] at h
      dsimp only at h
      cases hl : lookupJob (setQueue s p q').jobs item.jid with
      | none =>
        rw [hl] at h
        obtain ⟨h1, k, h2⟩ := ih _ h
        rw [setQueue_jobs] at h2
        exact ⟨h1, k, h2⟩
      | some job' =>
        rw [hl] at h
        dsimp only at h
        split at h
        · next hpend =>
          obtain rfl : job' = job := Option.some.injEq .. ▸ h
          rw [setQueue_jobs] at hl
          exact ⟨hpend, item.jid, hl⟩
        · obtain ⟨h1, k, h2⟩ := ih _ h
          rw [setQueue_jobs] at h2
          exact ⟨h1, k, h2⟩

lemma scan_none_of_empty (ps : List JobPriority) (s : JobManagerState)
    (h : ∀ p ∈ ps, getQueue s p = []) : (getNextJobScan ps s).1 = none := by
  induction ps with
  | nil => rfl
  | cons p ps ih =>
    rw [getNextJobScan, h p (List.mem_cons_self _ _)]
    exact ih fun p' hp' => h p' (List.mem_cons_of_mem _ hp')

lemma scan_untouched (ps : List JobPriority) (s : JobManagerState) (p : JobPriority) :
    p ∉ ps → getQueue (getNextJobScan ps s).2 p = getQueue s p := by
  induction ps generalizing s with
  | nil => exact fun _ => rfl
  | cons q qs ih =>
    intro hp
    have hne : p ≠ q := fun heq => hp (heq ▸ List.mem_cons_self _ _)
    have hnotin : p ∉ qs := fun hmem => hp (List.mem_cons_of_mem _ hmem)
    rw [getNextJobScan]
    cases hx : popMin (getQueue s q) with
    | none => exact ih s hnotin
    | some pr =>
      obtain ⟨item, q'⟩ := pr
      dsimp only
      cases hl : lookupJob (setQueue s q q').jobs item.jid with
      | none =>
        show getQueue (getNextJobScan qs (setQueue s q q')).2 p = getQueue s p
        rw [ih _ hnotin, getQueue_setQueue_ne _ _ _ _ hne]
      | some job =>
        show getQueue (if job.status = .PENDING then (some job, setQueue s q q')
              else getNextJobScan qs (setQueue s q q')).2 p = getQueue s p
        split
        · exact getQueue_setQueue_ne _ _ _ _ hne
        · rw [ih _ hnotin, getQueue_setQueue_ne _ _ _ _ hne]

lemma scan_pop_bound (ps : List JobPriority) (s : JobManagerState) (p : JobPriority) :
    ps.Nodup →
      (getQueue s p).length ≤ (getQueue (getNextJobScan ps s).2 p).length + 1 := by
  induction ps generalizing s with
  | nil =>
    intro _
    simp [getNextJobScan]
  | cons q qs ih =>
    intro hnd
    have hq_notin : q ∉ qs := (List.nodup_cons.mp hnd).1
    have hnd' : qs.Nodup := (List.nodup_cons.mp hnd).2
    rw [getNextJobScan]
    cases hx : popMin (getQueue s q) with
    | none => exact ih s hnd'
    | some pr =>
      obtain ⟨item, q'⟩ := pr
      have hlen : q'.length + 1 = (getQueue s q).length := popMin_length hx
      dsimp only
      cases hl : lookupJob (setQueue s q q').jobs item.jid with
      | none =>
        show (getQueue s p).length ≤
          (getQueue (getNextJobScan qs (setQueue s q q')).2 p).length + 1
        by_cases hpq : p = q
        · subst hpq
          rw [scan_untouched qs _ p hq_notin, getQueue_setQueue_same]
          omega
        · have := ih (setQueue s q q') hnd'
          rwa [getQueue_setQueue_ne _ _ _ _ hpq] at this
      | some job =>
        show (getQueue s p).length ≤
          (getQueue (if job.status = .PENDING then (some job, setQueue s q q')
            else getNextJobScan qs (setQueue s q q')).2 p).length + 1
        split
        · show (getQueue s p).length ≤ (getQueue (setQueue s q q') p).length + 1
          by_cases hpq : p = q
          · subst hpq
            rw [getQueue_setQueue_same]
            omega
          · rw [getQueue_setQueue_ne _ _ _ _ hpq]
            omega
        · show (getQueue s p).length ≤
            (getQueue (getNextJobScan qs (setQueue s q q')).2 p).length + 1
          by_cases hpq : p = q
          · subst hpq
            rw [scan_untouched qs _ p hq_notin, getQueue_setQueue_same]
            omega
          · have := ih (setQueue s q q') hnd'
            rwa [getQueue_setQueue_ne _ _ _ _ hpq] at this

lemma scan_step_live (s : JobManagerState) (p : JobPriority) (ps : List JobPriority)
    (item : QueueItem) (q' : List QueueItem) (job : TranscriptionJob)
    (hpop : popMin (getQueue s p) = some (item, q'))
    (hlook : lookupJob s.jobs item.jid = some job) (hpend : job.status = .PENDING) :
    getNextJobScan (p :: ps) s = (some job, setQueue s p q') := by
  rw [getNextJobScan, hpop]
  dsimp only
  rw [setQueue_jobs, hlook]
  dsimp only
  rw [if_pos hpend]

lemma scan_step_missing (s : JobManagerState) (p : JobPriority) (ps : List JobPriority)
    (item : QueueItem) (q' : List QueueItem)
    (hpop : popMin (getQueue s p) = some (item, q'))
    (hlook : lookupJob s.jobs item.jid = none) :
    getNextJobScan (p :: ps) s = getNextJobScan ps (setQueue s p q') := by
  rw [getNextJobScan, hpop]
  dsimp only
  rw [setQueue_jobs, hlook]

lemma scan_step_transitioned (s : JobManagerState) (p : JobPriority)
    (ps : List JobPriority) (item : QueueItem) (q' : List QueueItem)
    (job : TranscriptionJob) (hpop : popMin (getQueue s p) = some (item, q'))
    (hlook : lookupJob s.jobs item.jid = some job) (hpend : job.status ≠ .PENDING) :
    getNextJobScan (p :: ps) s = getNextJobScan ps (setQueue s p q') := by
  rw [getNextJobScan, hpop]
  dsimp only
  rw [setQueue_jobs, hlook]
  dsimp only
  rw [if_neg hpend]

lemma scan_step_empty_level (s : JobManagerState) (p : JobPriority)
    (ps : List JobPriority) (hempty : getQueue s p = []) :
    getNextJobScan (p :: ps) s = getNextJobScan ps s := by
  rw [getNextJobScan, hempty]
  rfl

/-- Claim C3 as amended: get_next_job scans the priority levels in the enum
member order LOW, MEDIUM, HIGH and pops at most ONE entry from each non-empty
queue (rather than popping until a live entry is found): an empty level is
skipped; when the popped least entry references a stored job that is still
PENDING, that job is returned with exactly that entry removed; when it
references a removed or already-transitioned job, the entry is silently
discarded and the scan moves on to the next level.  The call leaves the
store untouched, returns only a stored job that is still PENDING, and
returns none whenever all queues are empty — but, per the counterexample, it
may also return none while a queue still holds a live entry behind a stale
one. -/
theorem getNextJob_probes_one_entry_per_level :
    ∀ s : JobManagerState,
      (get_next_job s).2.jobs = s.jobs ∧
      (∀ p, (getQueue s p).length ≤ (getQueue (get_next_job s).2 p).length + 1) ∧
      (∀ job, (get_next_job s).1 = some job →
        job.status = .PENDING ∧ ∃ k, lookupJob s.jobs k = some job) ∧
      ((∀ p, getQueue s p = []) → (get_next_job s).1 = none) ∧
      get_next_job s = getNextJobScan [.LOW, .MEDIUM, .HIGH] s ∧
      (∀ (p : JobPriority) (ps : List JobPriority) (item : QueueItem)
         (q' : List QueueItem) (job : TranscriptionJob),
        popMin (getQueue s p) = some (item, q') →
        lookupJob s.jobs item.jid = some job → job.status = .PENDING →
        getNextJobScan (p :: ps) s = (some job, setQueue s p q')) ∧
      (∀ (p : JobPriority) (ps : List JobPriority) (item : QueueItem)
         (q' : List QueueItem),
        popMin (getQueue s p) = some (item, q') →
        lookupJob s.jobs item.jid = none →
        getNextJobScan (p :: ps) s = getNextJobScan ps (setQueue s p q')) ∧
      (∀ (p : JobPriority) (ps : List JobPriority) (item : QueueItem)
         (q' : List QueueItem) (job : TranscriptionJob),
        popMin (getQueue s p) = some (item, q') →
        lookupJob s.jobs item.jid = some job → job.status ≠ .PENDING →
        getNextJobScan (p :: ps) s = getNextJobScan ps (setQueue s p q')) ∧
      (∀ (p : JobPriority) (ps : List JobPriority),
        getQueue s p = [] → getNextJobScan (p :: ps) s = getNextJobScan ps s) := by
  intro s
  refine ⟨scan_jobs_unchanged _ _, ?_, ?_, ?_, rfl, ?_, ?_, ?_, ?_⟩
  · exact fun p => scan_pop_bound jobPriorityMembers s p (by decide)
  · exact fun job h => scan_some_pending _ _ _ h
  · exact fun h => scan_none_of_empty _ _ fun p _ => h p
  · exact fun p ps item q' job hpop hlook hpend =>
      scan_step_live s p ps item q' job hpop hlook hpend
  · exact fun p ps item q' hpop hlook => scan_step_missing s p ps item q' hpop hlook
  · exact fun p ps item q' job hpop hlook hpend =>
      scan_step_transitioned s p ps item q' job hpop hlook hpend
  · exact fun p ps hempty => scan_step_empty_level s p ps hempty

/-- State with no stored jobs and all queues empty. -/
def emptyState : JobManagerState := { jobs := [], highQ := [], medQ := [], lowQ := [] }

/-- LOW-priority PENDING job, the live head of c3LiveState's LOW queue. -/
def c3LiveJob : TranscriptionJob := create_pending "lv" "https://x/lv.mp3" .LOW 4

/-- State whose LOW queue's only entry references the stored PENDING job lv. -/
def c3LiveState : JobManagerState :=
  { jobs := [("lv", c3LiveJob)], highQ := [], medQ := [], lowQ := [⟨3, 4, "lv"⟩] }

/-- LOW-priority job already claimed (PROCESSING), still referenced by a
queue entry. -/
def c3ProcJob : TranscriptionJob :=
  { job_id := "pr", url := "https://x/pr.mp3", status := .PROCESSING, priority := .LOW,
    created_at := 2, started_at := some 2 }

/-- State whose LOW queue's only entry references the already-PROCESSING job
pr. -/
def c3ProcState : JobManagerState :=
  { jobs := [("pr", c3ProcJob)], highQ := [], medQ := [], lowQ := [⟨3, 2, "pr"⟩] }

/-- Witness for the amended C3 theorem at concrete states: the live PENDING
head of the first non-empty level is returned with its entry removed, a
missing-job head is discarded and the scan advances, an already-transitioned
head is discarded and the scan advances, an empty level is skipped, and the
all-queues-empty hypothesis is discharged at emptyState. -/
theorem getNextJob_probes_one_entry_per_level_witness :
    (get_next_job c3State).2.jobs = c3State.jobs ∧
    (getQueue c3State .LOW).length ≤ (getQueue (get_next_job c3State).2 .LOW).length + 1 ∧
    (get_next_job emptyState).1 = none ∧
    get_next_job c3LiveState = getNextJobScan [.LOW, .MEDIUM, .HIGH] c3LiveState ∧
    getNextJobScan [.LOW, .MEDIUM, .HIGH] c3LiveState =
      (some c3LiveJob, setQueue c3LiveState .LOW []) ∧
    getNextJobScan [.LOW, .MEDIUM, .HIGH] c3State =
      getNextJobScan [.MEDIUM, .HIGH] (setQueue c3State .LOW [⟨3, 5, "l1"⟩]) ∧
    getNextJobScan [.LOW, .MEDIUM, .HIGH] c3ProcState =
      getNextJobScan [.MEDIUM, .HIGH] (setQueue c3ProcState .LOW []) ∧
    getNextJobScan [.LOW, .MEDIUM, .HIGH] emptyState =
      getNextJobScan [.MEDIUM, .HIGH] emptyState :=
  ⟨(getNextJob_probes_one_entry_per_level c3State).1,
   (getNextJob_probes_one_entry_per_level c3State).2.1 .LOW,
   (getNextJob_probes_one_entry_per_level emptyState).2.2.2.1 (fun p => by cases p <;> rfl),
   (getNextJob_probes_one_entry_per_level c3LiveState).2.2.2.2.1,
   (getNextJob_probes_one_entry_per_level c3LiveState).2.2.2.2.2.1
     .LOW [.MEDIUM, .HIGH] ⟨3, 4, "lv"⟩ [] c3LiveJob rfl rfl rfl,
   (getNextJob_probes_one_entry_per_level c3State).2.2.2.2.2.2.1
     .LOW [.MEDIUM, .HIGH] ⟨3, 1, "ghost"⟩ [⟨3, 5, "l1"⟩] rfl rfl,
   (getNextJob_probes_one_entry_per_level c3ProcState).2.2.2.2.2.2.2.1
     .LOW [.MEDIUM, .HIGH] ⟨3, 2, "pr"⟩ [] c3ProcJob rfl rfl (by decide),
   (getNextJob_probes_one_entry_per_level emptyState).2.2.2.2.2.2.2.2
     .LOW [.MEDIUM, .HIGH] rfl⟩

/-- MEDIUM-priority PENDING job a, created at time 3. -/
def c6JobA : TranscriptionJob := create_pending "a" "https://x/a.mp3" .MEDIUM 3

/-- MEDIUM-priority PENDING job b, created at time 5. -/
def c6JobB : TranscriptionJob := create_pending "b" "https://x/b.mp3" .MEDIUM 5

/-- Store holding jobs a and b with empty queues. -/
def c6Base : JobManagerState :=
  { jobs := [("a", c6JobA), ("b", c6JobB)], highQ := [], medQ := [], lowQ := [] }

/-- c6Base after enqueuing job b. -/
def c6S1 : JobManagerState := { c6Base with medQ := [⟨2, 5, "b"⟩] }

/-- c6S1 after enqueuing job a: b was enqueued before a, but a carries the
smaller created_at timestamp. -/
def c6S2 : JobManagerState := { c6Base with medQ := [⟨2, 5, "b"⟩, ⟨2, 3, "a"⟩] }

/-- Claim C6 counterexample: job b is enqueued before job a, yet get_next_job
dispatches a first and b second, because the queue entry tuple's second
component is the job's created_at timestamp (a was created earlier), not an
enqueue timestamp — dispatch is not FIFO in enqueue order. -/
theorem dispatch_not_fifo_by_enqueue_order :
    queue_job c6Base c6JobB = .ok c6S1 ∧
    queue_job c6S1 c6JobA = .ok c6S2 ∧
    (get_next_job c6S2).1 = some c6JobA ∧
    (get_next_job (get_next_job c6S2).2).1 = some c6JobB := by
  exact ⟨rfl, rfl, rfl, rfl⟩

/-- Claim C6 as amended: the queue entry tuple built by queue_job is
(priority_value, job.created_at, job.job_id) — its second component is the
job's creation timestamp, not an enqueue timestamp — and among same-rank
entries with distinct timestamps a pop returns the entry with the least
creation timestamp, so same-priority jobs are dispatched in creation-time
order (earliest created first), which equals submission order exactly when
jobs are enqueued in creation order. -/
theorem queue_entry_orders_by_created_at :
    (∀ (s : JobManagerState) (job : TranscriptionJob) (s' : JobManagerState),
      queue_job s job = .ok s' →
      getQueue s' job.priority = getQueue s job.priority ++
        [⟨priority_value job.priority, job.created_at, job.job_id⟩]) ∧
    (∀ (q : List QueueItem) (r : Nat) (m : QueueItem) (q' : List QueueItem),
      (∀ x ∈ q, x.rank = r) → (q.map QueueItem.ts).Nodup →
      popMin q = some (m, q') → ∀ x ∈ q, m.ts ≤ x.ts) := by
  constructor
  · intro s job s' hok
    unfold queue_job at hok
    dsimp only at hok
    split at hok
    · rw [← (QueueJobResult.ok.injEq _ _ ▸ hok :
          setQueue s job.priority (getQueue s job.priority ++
            [⟨priority_value job.priority, job.created_at, job.job_id⟩]) = s')]
      exact getQueue_setQueue_same _ _ _
    · exact QueueJobResult.noConfusion hok
  · intro q r m q' hr hnd h
    exact popMin_ts_min hr hnd h

/-- Witness for the amended C6 theorem: the entry appended for job a carries
its created_at, and the pop from the two-entry queue returns the least
timestamp. -/
theorem queue_entry_orders_by_created_at_witness :
    getQueue c6S2 c6JobA.priority =
      getQueue c6S1 c6JobA.priority ++ [⟨2, 3, "a"⟩] ∧
    (⟨2, 3, "a"⟩ : QueueItem).ts ≤ (⟨2, 5, "b"⟩ : QueueItem).ts :=
  ⟨queue_entry_orders_by_created_at.1 c6S1 c6JobA c6S2 rfl,
   queue_entry_orders_by_created_at.2 c6S2.medQ 2 ⟨2, 3, "a"⟩ [⟨2, 5, "b"⟩]
     (by decide) (by decide) (by decide) ⟨2, 5, "b"⟩ (by decide)⟩

lemma cleanupEntry_processing_stale (now : Int) (j : TranscriptionJob) (st : Int)
    (hst : j.status = .PROCESSING) (hstart : j.started_at = some st)
    (hold : now - st > JOB_TIMEOUT_MINUTES) :
    cleanupEntry now j =
      (some { j with status := .FAILED, completed_at := some now,
                     error_message := some "Job timed out during forced cleanup",
                     transcript := none }, 0, 0, 1) := by
  unfold cleanupEntry
  rw [if_neg (by simp [hst]), if_pos hst, hstart]
  dsimp only
  rw [if_pos hold,
    mark_failed_from_nonterminal j "Job timed out during forced cleanup" now
      (Or.inr hst) (by decide)]
  dsimp only
  rw [hstart]

lemma cleanupEntry_keeps_fresh_terminal (now : Int) (j : TranscriptionJob) (cc : Int)
    (hterm : j.status = .COMPLETED ∨ j.status = .FAILED)
    (hc : j.completed_at = some cc) (hfresh : ¬ now - cc > CLEANUP_INTERVAL_MINUTES) :
    cleanupEntry now j = (some j, 0, 0, 0) := by
  unfold cleanupEntry
  rw [if_pos hterm, hc]
  dsimp only
  rw [if_neg hfresh]

lemma cleanupEntry_keeps_terminal_no_completed (now : Int) (j : TranscriptionJob)
    (hterm : j.status = .COMPLETED ∨ j.status = .FAILED) (hc : j.completed_at = none) :
    cleanupEntry now j = (some j, 0, 0, 0) := by
  unfold cleanupEntry
  rw [if_pos hterm, hc]

/-- Re-running the per-record cleanup decision at the same instant on a
record the first run kept is a no-op with zero counter increments. -/
lemma cleanupEntry_idem (now : Int) (j j' : TranscriptionJob) (a b c : Nat)
    (h : cleanupEntry now j = (some j', a, b, c)) :
    cleanupEntry now j' = (some j', 0, 0, 0) := by
  by_cases hterm : j.status = .COMPLETED ∨ j.status = .FAILED
  · cases hc : j.completed_at with
    | none =>
      have h' := cleanupEntry_keeps_terminal_no_completed now j hterm hc
      have heq := h'.symm.trans h
      simp only [Prod.mk.injEq, Option.some.injEq] at heq
      obtain ⟨rfl, -, -, -⟩ := heq
      exact h'
    | some cc =>
      by_cases hage : now - cc > CLEANUP_INTERVAL_MINUTES
      · exfalso
        unfold cleanupEntry at h
        rw [if_pos hterm, hc] at h
        dsimp only at h
        rw [if_pos hage] at h
        split at h <;> simp at h
      · have h' := cleanupEntry_keeps_fresh_terminal now j cc hterm hc hage
        have heq := h'.symm.trans h
        simp only [Prod.mk.injEq, Option.some.injEq] at heq
        obtain ⟨rfl, -, -, -⟩ := heq
        exact h'
  · by_cases hproc : j.status = .PROCESSING
    · cases hstart : j.started_at with
      | none =>
        have h' : cleanupEntry now j = (some j, 0, 0, 0) := by
          unfold cleanupEntry
          rw [if_neg hterm, if_pos hproc, hstart]
        have heq := h'.symm.trans h
        simp only [Prod.mk.injEq, Option.some.injEq] at heq
        obtain ⟨rfl, -, -, -⟩ := heq
        exact h'
      | some st =>
        by_cases hold : now - st > JOB_TIMEOUT_MINUTES
        · have h' := cleanupEntry_processing_stale now j st hproc hstart hold
          have heq := h'.symm.trans h
          simp only [Prod.mk.injEq, Option.some.injEq] at heq
          obtain ⟨rfl, -, -, -⟩ := heq
          have hzero : ¬ now - now > CLEANUP_INTERVAL_MINUTES := by
            unfold CLEANUP_INTERVAL_MINUTES
            omega
          exact cleanupEntry_keeps_fresh_terminal now _ now (Or.inr rfl) rfl hzero
        · have h' : cleanupEntry now j = (some j, 0, 0, 0) := by
            unfold cleanupEntry
            rw [if_neg hterm, if_pos hproc, hstart]
            dsimp only
            rw [if_neg hold]
          have heq := h'.symm.trans h
          simp only [Prod.mk.injEq, Option.some.injEq] at heq
          obtain ⟨rfl, -, -, -⟩ := heq
          exact h'
    · have h' : cleanupEntry now j = (some j, 0, 0, 0) := by
        unfold cleanupEntry
        rw [if_neg hterm, if_neg hproc]
      have heq := h'.symm.trans h
      simp only [Prod.mk.injEq, Option.some.injEq] at heq
      obtain ⟨rfl, -, -, -⟩ := heq
      exact h'

/-- A second cleanup pass over the survivors of a first pass at the same
instant keeps every record and increments no counter. -/
lemma cleanupPass_idem (now : Int) (l : List (String × TranscriptionJob)) :
    cleanupPass now (cleanupPass now l).1 = ((cleanupPass now l).1, 0, 0, 0) := by
  induction l with
  | nil => rfl
  | cons kv rest ih =>
    obtain ⟨k, j⟩ := kv
    rw [cleanupPass]
    cases he : cleanupEntry now j with
    | mk oj cnts =>
      obtain ⟨a, b, c⟩ := cnts
      cases oj with
      | none => exact ih
      | some j' =>
        dsimp only
        rw [cleanupPass, cleanupEntry_idem now j j' a b c he, ih]

lemma lookupJob_none_of_not_mem (l : List (String × TranscriptionJob)) (jid : String)
    (h : jid ∉ l.map Prod.fst) : lookupJob l jid = none := by
  induction l with
  | nil => rfl
  | cons kv rest ih =>
    obtain ⟨k, v⟩ := kv
    rw [List.map_cons] at h
    have hk : k ≠ jid := fun heq => h (heq ▸ List.mem_cons_self _ _)
    rw [lookupJob, if_neg hk]
    exact ih fun hmem => h (List.mem_cons_of_mem _ hmem)

lemma lookupJob_none_cleanupPass (now : Int) (l : List (String × TranscriptionJob))
    (jid : String) (h : lookupJob l jid = none) :
    lookupJob (cleanupPass now l).1 jid = none := by
  induction l with
  | nil => rfl
  | cons kv rest ih =>
    obtain ⟨k, v⟩ := kv
    rw [lookupJob] at h
    by_cases hk : k = jid
    · rw [if_pos hk] at h
      exact Option.noConfusion h
    · rw [if_neg hk] at h
      rw [cleanupPass]
      cases he : cleanupEntry now v with
      | mk oj cnts =>
        cases oj with
        | none => exact ih h
        | some v' =>
          dsimp only
          rw [lookupJob, if_neg hk]
          exact ih h

lemma cleanupPass_lookup_kept (now : Int) (l : List (String × TranscriptionJob))
    (jid : String) (j j' : TranscriptionJob) (hl : lookupJob l jid = some j)
    (he : (cleanupEntry now j).1 = some j') :
    lookupJob (cleanupPass now l).1 jid = some j' := by
  induction l with
  | nil => exact Option.noConfusion hl
  | cons kv rest ih =>
    obtain ⟨k, v⟩ := kv
    rw [lookupJob] at hl
    rw [cleanupPass]
    by_cases hk : k = jid
    · rw [if_pos hk] at hl
      obtain rfl : v = j := Option.some.injEq .. ▸ hl
      cases hev : cleanupEntry now v with
      | mk oj cnts =>
        rw [hev] at he
        obtain ⟨a, b, c⟩ := cnts
        cases oj with
        | none => exact Option.noConfusion he
        | some w =>
          obtain rfl : w = j' := Option.some.injEq .. ▸ he
          dsimp only
          rw [lookupJob, if_pos hk]
    · rw [if_neg hk] at hl
      cases hev : cleanupEntry now v with
      | mk oj cnts =>
        cases oj with
        | none => exact ih hl
        | some w =>
          dsimp only
          rw [lookupJob, if_neg hk]
          exact ih hl

lemma cleanupPass_keys_sublist (now : Int) (l : List (String × TranscriptionJob)) :
    ((cleanupPass now l).1.map Prod.fst).Sublist (l.map Prod.fst) := by
  induction l with
  | nil => exact List.Sublist.refl _
  | cons kv rest ih =>
    obtain ⟨k, v⟩ := kv
    rw [cleanupPass]
    cases he : cleanupEntry now v with
    | mk oj cnts =>
      cases oj with
      | none => exact List.Sublist.cons _ ih
      | some v' =>
        dsimp only
        rw [List.map_cons]
        exact List.Sublist.cons₂ _ ih

lemma cleanupPass_lookup_removed (now : Int) (l : List (String × TranscriptionJob))
    (jid : String) (j : TranscriptionJob) (hnd : (l.map Prod.fst).Nodup)
    (hl : lookupJob l jid = some j) (he : (cleanupEntry now j).1 = none) :
    lookupJob (cleanupPass now l).1 jid = none := by
  induction l with
  | nil => exact Option.noConfusion hl
  | cons kv rest ih =>
    obtain ⟨k, v⟩ := kv
    have hnd1 : k ∉ rest.map Prod.fst := (List.nodup_cons.mp (by simpa using hnd)).1
    have hnd2 : (rest.map Prod.fst).Nodup := (List.nodup_cons.mp (by simpa using hnd)).2
    rw [lookupJob] at hl
    rw [cleanupPass]
    by_cases hk : k = jid
    · rw [if_pos hk] at hl
      obtain rfl : v = j := Option.some.injEq .. ▸ hl
      cases hev : cleanupEntry now v with
      | mk oj cnts =>
        rw [hev] at he
        obtain ⟨a, b, c⟩ := cnts
        cases oj with
        | none =>
          dsimp only
          exact lookupJob_none_cleanupPass now rest jid
            (lookupJob_none_of_not_mem rest jid (hk ▸ hnd1))
        | some w => exact Option.noConfusion he
    · rw [if_neg hk] at hl
      cases hev : cleanupEntry now v with
      | mk oj cnts =>
        cases oj with
        | none => exact ih hnd2 hl
        | some w =>
          dsimp only
          rw [lookupJob, if_neg hk]
          exact ih hnd2 hl

lemma cleanupPass_mem_kept (now : Int) (l : List (String × TranscriptionJob))
    (k : String) (j : TranscriptionJob) (hmem : (k, j) ∈ l)
    (he : (cleanupEntry now j).1 = some j) : (k, j) ∈ (cleanupPass now l).1 := by
  induction l with
  | nil => exact absurd hmem (List.not_mem_nil _)
  | cons kv rest ih =>
    obtain ⟨k', v⟩ := kv
    rw [cleanupPass]
    rcases List.mem_cons.mp hmem with heq | hmem'
    · obtain ⟨rfl, rfl⟩ := Prod.mk.injEq .. ▸ heq
      cases hev : cleanupEntry now j with
      | mk oj cnts =>
        rw [hev] at he
        obtain ⟨a, b, c⟩ := cnts
        cases oj with
        | none => exact Option.noConfusion he
        | some w =>
          obtain rfl : w = j := Option.some.injEq .. ▸ he
          exact List.mem_cons_self _ _
    · cases hev : cleanupEntry now v with
      | mk oj cnts =>
        cases oj with
        | none => exact ih hmem'
        | some v' =>
          dsimp only
          exact List.mem_cons_of_mem _ (ih hmem')

/-- Claim C5: a PROCESSING job whose started timestamp is more than
JOB_TIMEOUT_MINUTES old is transitioned by force_cleanup to FAILED with the
timeout message and kept in the store in that pass; a later cleanup pass run
once the job's completed timestamp (set to the first pass's clock) is more
than the retention interval old deletes it. -/
theorem processing_timeout_two_phase
    (s : JobManagerState) (now now2 st : Int) (jid : String) (j : TranscriptionJob)
    (hnd : (s.jobs.map Prod.fst).Nodup)
    (hlook : lookupJob s.jobs jid = some j)
    (hst : j.status = .PROCESSING)
    (hstart : j.started_at = some st)
    (hold : now - st > JOB_TIMEOUT_MINUTES)
    (hlater : now2 - now > CLEANUP_INTERVAL_MINUTES) :
    lookupJob (force_cleanup s now).1.jobs jid =
      some { j with status := .FAILED, completed_at := some now,
                    error_message := some "Job timed out during forced cleanup",
                    transcript := none } ∧
    lookupJob (force_cleanup (force_cleanup s now).1 now2).1.jobs jid = none := by
  have hentry := cleanupEntry_processing_stale now j st hst hstart hold
  have he1 : (cleanupEntry now j).1 =
      some { j with status := .FAILED, completed_at := some now,
                    error_message := some "Job timed out during forced cleanup",
                    transcript := none } := by rw [hentry]
  have h1 : lookupJob (cleanupPass now s.jobs).1 jid =
      some { j with status := .FAILED, completed_at := some now,
                    error_message := some "Job timed out during forced cleanup",
                    transcript := none } :=
    cleanupPass_lookup_kept now s.jobs jid j _ hlook he1
  refine ⟨h1, ?_⟩
  have hnd2 : ((cleanupPass now s.jobs).1.map Prod.fst).Nodup :=
    (cleanupPass_keys_sublist now s.jobs).nodup hnd
  have he2 : (cleanupEntry now2
      { j with status := .FAILED, completed_at := some now,
               error_message := some "Job timed out during forced cleanup",
               transcript := none }).1 = none := by
    unfold cleanupEntry
    rw [if_pos (Or.inr rfl)]
    dsimp only
    rw [if_pos hlater]
    rfl
  exact cleanupPass_lookup_removed now2 (cleanupPass now s.jobs).1 jid _ hnd2 h1 he2

/-- PROCESSING job started at clock 0, used to witness the two-phase timeout. -/
def c5Job : TranscriptionJob :=
  { job_id := "p5", url := "https://x/p5.mp3", status := .PROCESSING, priority := .MEDIUM,
    created_at := 0, started_at := some 0 }

/-- Store holding only c5Job. -/
def c5State : JobManagerState :=
  { jobs := [("p5", c5Job)], highQ := [], medQ := [], lowQ := [] }

/-- Witness for the two-phase timeout at clock 31 (31 minutes after start)
and a second cleanup at clock 92 (61 minutes after the forced failure). -/
theorem processing_timeout_two_phase_witness :
    lookupJob (force_cleanup c5State 31).1.jobs "p5" =
      some { c5Job with status := .FAILED, completed_at := some 31,
                        error_message := some "Job timed out during forced cleanup",
                        transcript := none } ∧
    lookupJob (force_cleanup (force_cleanup c5State 31).1 92).1.jobs "p5" = none :=
  processing_timeout_two_phase c5State 31 92 0 "p5" c5Job (by decide) rfl rfl rfl
    (by decide) (by decide)

/-- Claim C9: force_cleanup is idempotent over an immediate repeat — calling
it again at the same instant with no jobs added in between reports an initial
count equal to its final count, zero stale-completed removals, zero
stale-failed removals, and zero timed-out jobs. -/
theorem force_cleanup_idempotent :
    ∀ (s : JobManagerState) (now : Int),
      (force_cleanup (force_cleanup s now).1 now).2.initial_job_count =
        (force_cleanup (force_cleanup s now).1 now).2.final_job_count ∧
      (force_cleanup (force_cleanup s now).1 now).2.stale_completed_removed = 0 ∧
      (force_cleanup (force_cleanup s now).1 now).2.stale_failed_removed = 0 ∧
      (force_cleanup (force_cleanup s now).1 now).2.processing_timed_out = 0 := by
  intro s now
  have h := cleanupPass_idem now s.jobs
  refine ⟨?_, ?_, ?_, ?_⟩
  · show (cleanupPass now s.jobs).1.length =
      (cleanupPass now (cleanupPass now s.jobs).1).1.length
    rw [h]
  · show (cleanupPass now (cleanupPass now s.jobs).1).2.1 = 0
    rw [h]
  · show (cleanupPass now (cleanupPass now s.jobs).1).2.2.1 = 0
    rw [h]
  · show (cleanupPass now (cleanupPass now s.jobs).1).2.2.2 = 0
    rw [h]

/-- Claim C10: force_cleanup deletes a terminal job only when its completed
timestamp is set; a COMPLETED or FAILED job whose completed timestamp is
None stays in the store on every pass, at any clock value. -/
theorem terminal_without_completed_never_removed
    (s : JobManagerState) (now : Int) (k : String) (j : TranscriptionJob)
    (hmem : (k, j) ∈ s.jobs)
    (hterm : j.status = .COMPLETED ∨ j.status = .FAILED)
    (hnone : j.completed_at = none) :
    (k, j) ∈ (force_cleanup s now).1.jobs := by
  have he : (cleanupEntry now j).1 = some j := by
    rw [cleanupEntry_keeps_terminal_no_completed now j hterm hnone]
  exact cleanupPass_mem_kept now s.jobs k j hmem he

/-- FAILED job with an error message but no completed timestamp. -/
def c10Job : TranscriptionJob :=
  { job_id := "f10", url := "https://x/f10.mp3", status := .FAILED, priority := .LOW,
    created_at := 0, error_message := some "boom" }

/-- Store holding only c10Job. -/
def c10State : JobManagerState :=
  { jobs := [("f10", c10Job)], highQ := [], medQ := [], lowQ := [] }

/-- Witness: the FAILED job with no completed timestamp survives a cleanup
run a million minutes later. -/
theorem terminal_without_completed_never_removed_witness :
    ("f10", c10Job) ∈ (force_cleanup c10State 1000000).1.jobs :=
  terminal_without_completed_never_removed c10State 1000000 "f10" c10Job
    (List.mem_cons_self _ _) (Or.inr rfl) rfl

end TS
